import Mathlib

/-!
Shallow embedding of the scanner in `src/lexr.cpp` (class `Lexer`).

The C++ `std::string` is modelled as `List Char`; `size_t` cursor fields are
`Nat`.  The three character-consuming `while` loops (`skipWhitespace`,
`readNumber`, `readIdentifier`) are modelled with the generic fuel-based
iterator `scanWhile`; fuel `input.length + 2` is proved sufficient below
(the loop guard is false at the result and adding fuel does not change it),
so the fuel versions coincide with the C++ `while` loops.
-/

/-- The null character `0` that `readChar` stores in `ch` at end of buffer. -/
def sentinel : Char := Char.ofNat 0

/-- Mirrors `enum class TokenType` in the source. -/
inductive TokenType where
  | NUMBER
  | IDENTIFIER
  | EQUALS
  | PLUS
  | MINUS
  | STAR
  | SLASH
  | OPEN_PAREN
  | CLOSE_PAREN
  | LET
  | ILLEGAL
  | END_OF_FILE
deriving DecidableEq, Repr

/-- Mirrors `struct Token`: a kind together with the matched text. -/
structure Token where
  type : TokenType
  literal : List Char
deriving DecidableEq, Repr

/-- The mutable state of class `Lexer`: the input, the two cursor fields
`position` / `readPosition`, and the current character `ch`. -/
structure Lexer where
  input : List Char
  position : Nat
  readPosition : Nat
  ch : Char
deriving DecidableEq, Repr

/-- Mirrors `Lexer::readChar`: load `input[readPosition]` (or the sentinel
once `readPosition` reaches the end) into `ch`, move `position` to
`readPosition`, and advance `readPosition`. -/
def readChar (l : Lexer) : Lexer :=
  { l with
    ch := if l.input.length ≤ l.readPosition then sentinel
          else l.input.getD l.readPosition sentinel
    position := l.readPosition
    readPosition := l.readPosition + 1 }

/-- The whitespace test used by `Lexer::skipWhitespace`. -/
def isWsCh (c : Char) : Bool := c == ' ' || c == '\t' || c == '\n' || c == '\r'

/-- The identifier-character test `isalpha(ch) || ch == '_'` used both in
`Lexer::readIdentifier` and in the `default` branch of `Lexer::nextToken`. -/
def isIdentCh (c : Char) : Bool := c.isAlpha || c == '_'

/-- Fuel-based model of a `while (p(ch)) readChar();` loop. -/
def scanWhile (p : Char → Bool) : Nat → Lexer → Lexer
  | 0, l => l
  | n + 1, l => if p l.ch then scanWhile p n (readChar l) else l

/-- Mirrors `Lexer::skipWhitespace`. -/
def skipWhitespace (l : Lexer) : Lexer :=
  scanWhile isWsCh (l.input.length + 2) l

/-- Mirrors `std::string::substr(pos, count)`. -/
def substrCpp (s : List Char) (pos count : Nat) : List Char :=
  (s.drop pos).take count

/-- Mirrors `Lexer::readNumber`: remember the start position, run the digit
loop, and return `input.substr(startPos, position - startPos)` together with
the updated state. -/
def readNumber (l : Lexer) : List Char × Lexer :=
  let l2 := scanWhile Char.isDigit (l.input.length + 2) l
  (substrCpp l.input l.position (l2.position - l.position), l2)

/-- Mirrors `Lexer::readIdentifier`. -/
def readIdentifier (l : Lexer) : List Char × Lexer :=
  let l2 := scanWhile isIdentCh (l.input.length + 2) l
  (substrCpp l.input l.position (l2.position - l.position), l2)

/-- Mirrors the constructor `Lexer::Lexer`: zero the cursor and call
`readChar` once (the initial `ch` placeholder is immediately overwritten). -/
def mkLexer (input : List Char) : Lexer :=
  readChar { input := input, position := 0, readPosition := 0, ch := sentinel }

/-- The `switch (ch)` dispatch of `Lexer::nextToken`, applied after
whitespace has been skipped.  The `default:` branch checks digits, then
identifier characters (with the exact keyword comparison `ident == "let"`),
and otherwise keeps the initial `ILLEGAL` token built from the single
current character; every branch that does not `return` early falls through
to the trailing `readChar()`. -/
def tokenAt (l : Lexer) : Token × Lexer :=
  if l.ch = '=' then (⟨.EQUALS, ['=']⟩, readChar l)
  else if l.ch = '+' then (⟨.PLUS, ['+']⟩, readChar l)
  else if l.ch = '-' then (⟨.MINUS, ['-']⟩, readChar l)
  else if l.ch = '*' then (⟨.STAR, ['*']⟩, readChar l)
  else if l.ch = '/' then (⟨.SLASH, ['/']⟩, readChar l)
  else if l.ch = '(' then (⟨.OPEN_PAREN, ['(']⟩, readChar l)
  else if l.ch = ')' then (⟨.CLOSE_PAREN, [')']⟩, readChar l)
  else if l.ch = sentinel then (⟨.END_OF_FILE, []⟩, readChar l)
  else if l.ch.isDigit then (⟨.NUMBER, (readNumber l).1⟩, (readNumber l).2)
  else if isIdentCh l.ch then
    (if (readIdentifier l).1 = "let".toList then
      (⟨.LET, (readIdentifier l).1⟩, (readIdentifier l).2)
     else (⟨.IDENTIFIER, (readIdentifier l).1⟩, (readIdentifier l).2))
  else (⟨.ILLEGAL, [l.ch]⟩, readChar l)

/-- Mirrors `Lexer::nextToken`: `skipWhitespace()` then the dispatch. -/
def nextToken (l : Lexer) : Token × Lexer :=
  tokenAt (skipWhitespace l)

/-- The tokens produced by repeated `nextToken` calls, up to and including
the first `END_OF_FILE` (with enough fuel to reach it). -/
def collectTokens : Nat → Lexer → List Token
  | 0, _ => []
  | n + 1, l =>
    let r := nextToken l
    if r.1.type = .END_OF_FILE then [r.1] else r.1 :: collectTokens n r.2

/-- The scanner state after `n` further `nextToken` calls. -/
def stepN : Nat → Lexer → Lexer
  | 0, l => l
  | n + 1, l => stepN n (nextToken l).2

/-- The segment of `s` between cursor positions `a` and `b`. -/
def seg (s : List Char) (a b : Nat) : List Char :=
  (s.drop a).take (b - a)

/-- Concatenation, per `nextToken` call up to the first `END_OF_FILE`, of
the whitespace segment the call skipped followed by the returned token's
text (the skipped whitespace is the input segment the skip loop advanced
over, read off from the cursor positions). -/
def reconstruct : Nat → Lexer → List Char
  | 0, _ => []
  | n + 1, l =>
    let ws := seg l.input l.position (skipWhitespace l).position
    let r := nextToken l
    if r.1.type = .END_OF_FILE then ws else ws ++ r.1.literal ++ reconstruct n r.2

/-- Characters of the input consumed per `nextToken` call (cursor advance
clamped to the input length), summed up to and including the first
`END_OF_FILE`. -/
def consumedFrom : Nat → Lexer → Nat
  | 0, _ => 0
  | n + 1, l =>
    let r := nextToken l
    let d := min r.2.position l.input.length - min l.position l.input.length
    if r.1.type = .END_OF_FILE then d else d + consumedFrom n r.2

/-- Cursor well-formedness: `readPosition` is one past `position`, and `ch`
caches the character at `position` (sentinel past the end).  Established by
the constructor and preserved by every `readChar`. -/
def LexInv (l : Lexer) : Prop :=
  l.readPosition = l.position + 1 ∧ l.ch = l.input.getD l.position sentinel

/-- The input contains no embedded null byte. -/
def NoNul (input : List Char) : Prop := sentinel ∉ input

/-- Scanner states reachable from construction on `input` by `nextToken`. -/
inductive Reach (input : List Char) : Lexer → Prop where
  | init : Reach input (mkLexer input)
  | step : ∀ {l : Lexer}, Reach input l → Reach input (nextToken l).2

/-! ### Basic facts about `readChar` and the fuel loops -/

theorem readChar_input (l : Lexer) : (readChar l).input = l.input := rfl

theorem readChar_position (l : Lexer) : (readChar l).position = l.readPosition := rfl

theorem readChar_readPosition (l : Lexer) :
    (readChar l).readPosition = l.readPosition + 1 := rfl

theorem readChar_ch_of_ge (l : Lexer) (h : l.input.length ≤ l.readPosition) :
    (readChar l).ch = sentinel := by
  simp [readChar, h]

theorem lexInv_readChar (l : Lexer) : LexInv (readChar l) := by
  refine ⟨rfl, ?_⟩
  show (if l.input.length ≤ l.readPosition then sentinel
        else l.input.getD l.readPosition sentinel) = l.input.getD l.readPosition sentinel
  split
  · exact (List.getD_eq_default _ _ ‹_›).symm
  · rfl

theorem lexInv_mkLexer (input : List Char) : LexInv (mkLexer input) :=
  lexInv_readChar _

theorem lexInv_pos_lt (l : Lexer) (h : LexInv l) (hne : l.ch ≠ sentinel) :
    l.position < l.input.length := by
  by_contra hge
  push_neg at hge
  exact hne (h.2.trans (List.getD_eq_default _ _ hge))

theorem lexInv_ch_eq_getElem (l : Lexer) (h : LexInv l)
    (hlt : l.position < l.input.length) : l.ch = l.input[l.position] :=
  h.2.trans (List.getD_eq_getElem _ _ hlt)

theorem lexInv_sentinel_of_noNul (l : Lexer) (h : LexInv l) (hn : NoNul l.input)
    (hs : l.ch = sentinel) : l.input.length ≤ l.position := by
  by_contra hlt
  push_neg at hlt
  have : sentinel ∈ l.input := by
    rw [← hs, lexInv_ch_eq_getElem l h hlt]
    exact List.getElem_mem hlt
  exact hn this

theorem scanWhile_input (p : Char → Bool) (n : Nat) (l : Lexer) :
    (scanWhile p n l).input = l.input := by
  induction n generalizing l with
  | zero => rfl
  | succ n ih =>
    unfold scanWhile
    split
    · exact (ih (readChar l)).trans rfl
    · rfl

theorem scanWhile_inv (p : Char → Bool) (n : Nat) (l : Lexer) (h : LexInv l) :
    LexInv (scanWhile p n l) := by
  induction n generalizing l with
  | zero => exact h
  | succ n ih =>
    unfold scanWhile
    split
    · exact ih (readChar l) (lexInv_readChar l)
    · exact h

theorem scanWhile_stop (p : Char → Bool) (n : Nat) (l : Lexer)
    (h : p l.ch = false) : scanWhile p n l = l := by
  cases n with
  | zero => rfl
  | succ n => unfold scanWhile; simp [h]

theorem scanWhile_exit (p : Char → Bool) (hp : p sentinel = false) (n : Nat)
    (l : Lexer) (h : l.input.length + 1 - l.readPosition < n) :
    p (scanWhile p n l).ch = false := by
  induction n generalizing l with
  | zero => omega
  | succ n ih =>
    unfold scanWhile
    split
    · by_cases hr : l.input.length ≤ l.readPosition
      · rw [scanWhile_stop p n (readChar l) (by rw [readChar_ch_of_ge l hr]; exact hp)]
        rw [readChar_ch_of_ge l hr]
        exact hp
      · apply ih
        rw [readChar_input, readChar_readPosition]
        omega
    · rename_i hpch
      simpa using hpch

theorem scanWhile_succ (p : Char → Bool) (n : Nat) (l : Lexer) :
    scanWhile p (n + 1) l = if p l.ch then scanWhile p n (readChar l) else l := rfl

theorem scanWhile_add (p : Char → Bool) (n m : Nat) (l : Lexer) :
    scanWhile p (n + m) l = scanWhile p m (scanWhile p n l) := by
  induction n generalizing l with
  | zero => rw [Nat.zero_add]; rfl
  | succ n ih =>
    rw [Nat.succ_add]
    by_cases h : p l.ch = true
    · rw [scanWhile_succ, if_pos h, scanWhile_succ, if_pos h]
      exact ih (readChar l)
    · have hf : p l.ch = false := by simpa using h
      rw [scanWhile_stop p _ l hf, scanWhile_stop p _ l hf, scanWhile_stop p _ l hf]

theorem scanWhile_pos_le (p : Char → Bool) (n : Nat) (l : Lexer) (h : LexInv l) :
    l.position ≤ (scanWhile p n l).position := by
  induction n generalizing l with
  | zero => exact Nat.le_refl _
  | succ n ih =>
    unfold scanWhile
    split
    · have h2 := ih (readChar l) (lexInv_readChar l)
      rw [readChar_position] at h2
      have h1 := h.1
      omega
    · exact Nat.le_refl _

theorem scanWhile_le_len (p : Char → Bool) (hp : p sentinel = false) (n : Nat)
    (l : Lexer) (h : LexInv l) (hl : l.position ≤ l.input.length) :
    (scanWhile p n l).position ≤ l.input.length := by
  induction n generalizing l with
  | zero => exact hl
  | succ n ih =>
    unfold scanWhile
    split
    · rename_i hpch
      have hne : l.ch ≠ sentinel := by
        intro e
        rw [e, hp] at hpch
        exact Bool.false_ne_true hpch
      have hlt := lexInv_pos_lt l h hne
      have h1 := h.1
      have h2 := ih (readChar l) (lexInv_readChar l)
        (by rw [readChar_position, readChar_input]; omega)
      rw [readChar_input] at h2
      exact h2
    · exact hl

theorem scanWhile_pos_lt (p : Char → Bool) (n : Nat) (l : Lexer) (h : LexInv l)
    (hpch : p l.ch = true) (hn : 1 ≤ n) : l.position < (scanWhile p n l).position := by
  cases n with
  | zero => omega
  | succ n =>
    unfold scanWhile
    rw [if_pos hpch]
    have h2 := scanWhile_pos_le p n (readChar l) (lexInv_readChar l)
    rw [readChar_position] at h2
    have h1 := h.1
    omega

/-! ### Whitespace-skip instances and segment algebra -/

theorem isWsCh_sentinel : isWsCh sentinel = false := by decide

theorem isDigit_sentinel : Char.isDigit sentinel = false := by decide

theorem isIdentCh_sentinel : isIdentCh sentinel = false := by decide

theorem skipWhitespace_input (l : Lexer) : (skipWhitespace l).input = l.input :=
  scanWhile_input _ _ _

theorem skipWhitespace_inv (l : Lexer) (h : LexInv l) : LexInv (skipWhitespace l) :=
  scanWhile_inv _ _ _ h

theorem skipWhitespace_exit (l : Lexer) : isWsCh (skipWhitespace l).ch = false :=
  scanWhile_exit _ isWsCh_sentinel _ _ (by omega)

theorem skipWhitespace_stop (l : Lexer) (h : isWsCh l.ch = false) :
    skipWhitespace l = l :=
  scanWhile_stop _ _ _ h

theorem skipWhitespace_pos_le (l : Lexer) (h : LexInv l) :
    l.position ≤ (skipWhitespace l).position :=
  scanWhile_pos_le _ _ _ h

theorem skipWhitespace_le_len (l : Lexer) (h : LexInv l)
    (hl : l.position ≤ l.input.length) :
    (skipWhitespace l).position ≤ l.input.length :=
  scanWhile_le_len _ isWsCh_sentinel _ _ h hl

theorem seg_append (s : List Char) (a b c : Nat) (hab : a ≤ b) (hbc : b ≤ c) :
    seg s a b ++ seg s b c = seg s a c := by
  unfold seg
  have hb : b = a + (b - a) := by omega
  have hc : c - a = (b - a) + (c - b) := by omega
  rw [hc, List.take_add]
  congr 1
  rw [List.drop_drop, ← hb]


theorem seg_single (s : List Char) (a : Nat) (h : a < s.length) :
    seg s a (a + 1) = [s[a]] := by
  unfold seg
  have h1 : a + 1 - a = 1 := by omega
  rw [h1, List.drop_eq_getElem_cons h]
  rfl

theorem seg_zero_len (s : List Char) : seg s 0 s.length = s := by
  unfold seg
  simp

theorem seg_ne_nil (s : List Char) (a b : Nat) (hab : a < b) (ha : a < s.length) :
    seg s a b ≠ [] := by
  have hlen : (seg s a b).length = min (b - a) (s.length - a) := by
    unfold seg
    rw [List.length_take, List.length_drop]
  intro hcon
  rw [hcon] at hlen
  simp only [List.length_nil] at hlen
  omega

/-! ### Branch equations for the `tokenAt` dispatch -/

theorem tokenAt_equals (l : Lexer) (h : l.ch = '=') :
    tokenAt l = (⟨.EQUALS, ['=']⟩, readChar l) := by
  delta tokenAt
  rw [if_pos h]

theorem tokenAt_plus (l : Lexer) (h : l.ch = '+') :
    tokenAt l = (⟨.PLUS, ['+']⟩, readChar l) := by
  delta tokenAt
  rw [if_neg (by rw [h]; decide), if_pos h]

theorem tokenAt_minus (l : Lexer) (h : l.ch = '-') :
    tokenAt l = (⟨.MINUS, ['-']⟩, readChar l) := by
  delta tokenAt
  rw [if_neg (by rw [h]; decide), if_neg (by rw [h]; decide), if_pos h]

theorem tokenAt_star (l : Lexer) (h : l.ch = '*') :
    tokenAt l = (⟨.STAR, ['*']⟩, readChar l) := by
  delta tokenAt
  rw [if_neg (by rw [h]; decide), if_neg (by rw [h]; decide),
    if_neg (by rw [h]; decide), if_pos h]

theorem tokenAt_slash (l : Lexer) (h : l.ch = '/') :
    tokenAt l = (⟨.SLASH, ['/']⟩, readChar l) := by
  delta tokenAt
  rw [if_neg (by rw [h]; decide), if_neg (by rw [h]; decide),
    if_neg (by rw [h]; decide), if_neg (by rw [h]; decide), if_pos h]

theorem tokenAt_oparen (l : Lexer) (h : l.ch = '(') :
    tokenAt l = (⟨.OPEN_PAREN, ['(']⟩, readChar l) := by
  delta tokenAt
  rw [if_neg (by rw [h]; decide), if_neg (by rw [h]; decide),
    if_neg (by rw [h]; decide), if_neg (by rw [h]; decide),
    if_neg (by rw [h]; decide), if_pos h]

theorem tokenAt_cparen (l : Lexer) (h : l.ch = ')') :
    tokenAt l = (⟨.CLOSE_PAREN, [')']⟩, readChar l) := by
  delta tokenAt
  rw [if_neg (by rw [h]; decide), if_neg (by rw [h]; decide),
    if_neg (by rw [h]; decide), if_neg (by rw [h]; decide),
    if_neg (by rw [h]; decide), if_neg (by rw [h]; decide), if_pos h]

theorem tokenAt_sentinel (l : Lexer) (h : l.ch = sentinel) :
    tokenAt l = (⟨.END_OF_FILE, []⟩, readChar l) := by
  delta tokenAt
  rw [if_neg (by rw [h]; decide), if_neg (by rw [h]; decide),
    if_neg (by rw [h]; decide), if_neg (by rw [h]; decide),
    if_neg (by rw [h]; decide), if_neg (by rw [h]; decide),
    if_neg (by rw [h]; decide), if_pos h]

theorem tokenAt_digit (l : Lexer) (hd : l.ch.isDigit = true) :
    tokenAt l = (⟨.NUMBER, (readNumber l).1⟩, (readNumber l).2) := by
  have hne : ∀ (c : Char), c.isDigit = false → ¬(l.ch = c) := by
    intro c hc e
    rw [e, hc] at hd
    exact Bool.false_ne_true hd
  delta tokenAt
  rw [if_neg (hne '=' (by decide)), if_neg (hne '+' (by decide)),
    if_neg (hne '-' (by decide)), if_neg (hne '*' (by decide)),
    if_neg (hne '/' (by decide)), if_neg (hne '(' (by decide)),
    if_neg (hne ')' (by decide)), if_neg (hne sentinel (by decide)), if_pos hd]

theorem tokenAt_ident (l : Lexer) (hi : isIdentCh l.ch = true)
    (hd : l.ch.isDigit = false) :
    tokenAt l =
      (if (readIdentifier l).1 = "let".toList then
        (⟨.LET, (readIdentifier l).1⟩, (readIdentifier l).2)
       else (⟨.IDENTIFIER, (readIdentifier l).1⟩, (readIdentifier l).2)) := by
  have hne : ∀ (c : Char), isIdentCh c = false → ¬(l.ch = c) := by
    intro c hc e
    rw [e, hc] at hi
    exact Bool.false_ne_true hi
  delta tokenAt
  rw [if_neg (hne '=' (by decide)), if_neg (hne '+' (by decide)),
    if_neg (hne '-' (by decide)), if_neg (hne '*' (by decide)),
    if_neg (hne '/' (by decide)), if_neg (hne '(' (by decide)),
    if_neg (hne ')' (by decide)), if_neg (hne sentinel (by decide)),
    if_neg (by rw [hd]; decide), if_pos hi]

theorem tokenAt_other (l : Lexer) (h1 : l.ch ≠ '=') (h2 : l.ch ≠ '+')
    (h3 : l.ch ≠ '-') (h4 : l.ch ≠ '*') (h5 : l.ch ≠ '/') (h6 : l.ch ≠ '(')
    (h7 : l.ch ≠ ')') (h8 : l.ch ≠ sentinel) (h9 : l.ch.isDigit = false)
    (h10 : isIdentCh l.ch = false) :
    tokenAt l = (⟨.ILLEGAL, [l.ch]⟩, readChar l) := by
  delta tokenAt
  rw [if_neg h1, if_neg h2, if_neg h3, if_neg h4, if_neg h5, if_neg h6,
    if_neg h7, if_neg h8, if_neg (by rw [h9]; decide), if_neg (by rw [h10]; decide)]

/-- The post-dispatch state is always the result of the trailing `readChar`
or of one of the two scanning loops. -/
theorem tokenAt_snd_shape (l : Lexer) :
    (tokenAt l).2 = readChar l ∨
    (tokenAt l).2 = scanWhile Char.isDigit (l.input.length + 2) l ∨
    (tokenAt l).2 = scanWhile isIdentCh (l.input.length + 2) l := by
  by_cases c1 : l.ch = '='
  · rw [tokenAt_equals l c1]; left; rfl
  by_cases c2 : l.ch = '+'
  · rw [tokenAt_plus l c2]; left; rfl
  by_cases c3 : l.ch = '-'
  · rw [tokenAt_minus l c3]; left; rfl
  by_cases c4 : l.ch = '*'
  · rw [tokenAt_star l c4]; left; rfl
  by_cases c5 : l.ch = '/'
  · rw [tokenAt_slash l c5]; left; rfl
  by_cases c6 : l.ch = '('
  · rw [tokenAt_oparen l c6]; left; rfl
  by_cases c7 : l.ch = ')'
  · rw [tokenAt_cparen l c7]; left; rfl
  by_cases c8 : l.ch = sentinel
  · rw [tokenAt_sentinel l c8]; left; rfl
  by_cases c9 : l.ch.isDigit = true
  · rw [tokenAt_digit l c9]; right; left; rfl
  by_cases c10 : isIdentCh l.ch = true
  · rw [tokenAt_ident l c10 (by simpa using c9)]
    right; right
    by_cases c11 : (readIdentifier l).1 = "let".toList
    · rw [if_pos c11]
      rfl
    · rw [if_neg c11]
      rfl
  · rw [tokenAt_other l c1 c2 c3 c4 c5 c6 c7 c8 (by simpa using c9)
      (by simpa using c10)]
    left; rfl

theorem tokenAt_input (l : Lexer) : (tokenAt l).2.input = l.input := by
  rcases tokenAt_snd_shape l with h | h | h <;> rw [h]
  · rfl
  · exact scanWhile_input _ _ _
  · exact scanWhile_input _ _ _

theorem tokenAt_inv (l : Lexer) (hI : LexInv l) : LexInv (tokenAt l).2 := by
  rcases tokenAt_snd_shape l with h | h | h <;> rw [h]
  · exact lexInv_readChar l
  · exact scanWhile_inv _ _ _ hI
  · exact scanWhile_inv _ _ _ hI

theorem tokenAt_pos_mono (l : Lexer) (hI : LexInv l) :
    l.position ≤ (tokenAt l).2.position := by
  have h1 := hI.1
  rcases tokenAt_snd_shape l with h | h | h <;> rw [h]
  · rw [readChar_position]; omega
  · exact scanWhile_pos_le _ _ _ hI
  · exact scanWhile_pos_le _ _ _ hI

/-- `tokenAt` reports `END_OF_FILE` only when the current character is the
sentinel. -/
theorem tokenAt_eof_type (l : Lexer) (h : (tokenAt l).1.type = .END_OF_FILE) :
    l.ch = sentinel := by
  by_cases c1 : l.ch = '='
  · rw [tokenAt_equals l c1] at h; simp at h
  by_cases c2 : l.ch = '+'
  · rw [tokenAt_plus l c2] at h; simp at h
  by_cases c3 : l.ch = '-'
  · rw [tokenAt_minus l c3] at h; simp at h
  by_cases c4 : l.ch = '*'
  · rw [tokenAt_star l c4] at h; simp at h
  by_cases c5 : l.ch = '/'
  · rw [tokenAt_slash l c5] at h; simp at h
  by_cases c6 : l.ch = '('
  · rw [tokenAt_oparen l c6] at h; simp at h
  by_cases c7 : l.ch = ')'
  · rw [tokenAt_cparen l c7] at h; simp at h
  by_cases c8 : l.ch = sentinel
  · exact c8
  by_cases c9 : l.ch.isDigit = true
  · rw [tokenAt_digit l c9] at h; simp at h
  by_cases c10 : isIdentCh l.ch = true
  · rw [tokenAt_ident l c10 (by simpa using c9)] at h
    by_cases c11 : (readIdentifier l).1 = "let".toList
    · rw [if_pos c11] at h; simp at h
    · rw [if_neg c11] at h; simp at h
  · rw [tokenAt_other l c1 c2 c3 c4 c5 c6 c7 c8 (by simpa using c9)
      (by simpa using c10)] at h
    simp at h

theorem readChar_span (m : Lexer) (hI : LexInv m) (hne : m.ch ≠ sentinel) :
    [m.ch] = seg m.input m.position (readChar m).position ∧
    m.position < (readChar m).position ∧
    (readChar m).position ≤ m.input.length := by
  have hlt := lexInv_pos_lt m hI hne
  have h1 := hI.1
  refine ⟨?_, ?_, ?_⟩
  · rw [readChar_position, h1, seg_single m.input m.position hlt,
      lexInv_ch_eq_getElem m hI hlt]
  · rw [readChar_position]; omega
  · rw [readChar_position]; omega

/-- Per-call characterization of the dispatch: an `END_OF_FILE` token is
empty and moves the cursor one step past the sentinel; every other token's
text is exactly the input segment between the entry position and the exit
position, which advances strictly and stays within the input. -/
theorem tokenAt_span (m : Lexer) (hI : LexInv m) (hl : m.position ≤ m.input.length) :
    ((tokenAt m).1.type = .END_OF_FILE →
      (tokenAt m).1.literal = [] ∧ (tokenAt m).2.position = m.position + 1) ∧
    ((tokenAt m).1.type ≠ .END_OF_FILE →
      (tokenAt m).1.literal = seg m.input m.position (tokenAt m).2.position ∧
      m.position < (tokenAt m).2.position ∧
      (tokenAt m).2.position ≤ m.input.length) := by
  by_cases c1 : m.ch = '='
  · rw [tokenAt_equals m c1]
    refine ⟨fun hE => TokenType.noConfusion hE, fun _ => ?_⟩
    obtain ⟨hseg, hlt2, hle2⟩ := readChar_span m hI (by rw [c1]; decide)
    refine ⟨?_, hlt2, hle2⟩
    show ['='] = seg m.input m.position (readChar m).position
    rw [← c1]
    exact hseg
  by_cases c2 : m.ch = '+'
  · rw [tokenAt_plus m c2]
    refine ⟨fun hE => TokenType.noConfusion hE, fun _ => ?_⟩
    obtain ⟨hseg, hlt2, hle2⟩ := readChar_span m hI (by rw [c2]; decide)
    refine ⟨?_, hlt2, hle2⟩
    show ['+'] = seg m.input m.position (readChar m).position
    rw [← c2]
    exact hseg
  by_cases c3 : m.ch = '-'
  · rw [tokenAt_minus m c3]
    refine ⟨fun hE => TokenType.noConfusion hE, fun _ => ?_⟩
    obtain ⟨hseg, hlt2, hle2⟩ := readChar_span m hI (by rw [c3]; decide)
    refine ⟨?_, hlt2, hle2⟩
    show ['-'] = seg m.input m.position (readChar m).position
    rw [← c3]
    exact hseg
  by_cases c4 : m.ch = '*'
  · rw [tokenAt_star m c4]
    refine ⟨fun hE => TokenType.noConfusion hE, fun _ => ?_⟩
    obtain ⟨hseg, hlt2, hle2⟩ := readChar_span m hI (by rw [c4]; decide)
    refine ⟨?_, hlt2, hle2⟩
    show ['*'] = seg m.input m.position (readChar m).position
    rw [← c4]
    exact hseg
  by_cases c5 : m.ch = '/'
  · rw [tokenAt_slash m c5]
    refine ⟨fun hE => TokenType.noConfusion hE, fun _ => ?_⟩
    obtain ⟨hseg, hlt2, hle2⟩ := readChar_span m hI (by rw [c5]; decide)
    refine ⟨?_, hlt2, hle2⟩
    show ['/'] = seg m.input m.position (readChar m).position
    rw [← c5]
    exact hseg
  by_cases c6 : m.ch = '('
  · rw [tokenAt_oparen m c6]
    refine ⟨fun hE => TokenType.noConfusion hE, fun _ => ?_⟩
    obtain ⟨hseg, hlt2, hle2⟩ := readChar_span m hI (by rw [c6]; decide)
    refine ⟨?_, hlt2, hle2⟩
    show ['('] = seg m.input m.position (readChar m).position
    rw [← c6]
    exact hseg
  by_cases c7 : m.ch = ')'
  · rw [tokenAt_cparen m c7]
    refine ⟨fun hE => TokenType.noConfusion hE, fun _ => ?_⟩
    obtain ⟨hseg, hlt2, hle2⟩ := readChar_span m hI (by rw [c7]; decide)
    refine ⟨?_, hlt2, hle2⟩
    show [')'] = seg m.input m.position (readChar m).position
    rw [← c7]
    exact hseg
  by_cases c8 : m.ch = sentinel
  · rw [tokenAt_sentinel m c8]
    refine ⟨fun _ => ⟨rfl, ?_⟩, fun hne => absurd rfl hne⟩
    show (readChar m).position = m.position + 1
    rw [readChar_position, hI.1]
  by_cases c9 : m.ch.isDigit = true
  · rw [tokenAt_digit m c9]
    refine ⟨fun hE => TokenType.noConfusion hE, fun _ => ?_⟩
    refine ⟨rfl, ?_, ?_⟩
    · exact scanWhile_pos_lt _ _ m hI c9 (by omega)
    · exact scanWhile_le_len _ isDigit_sentinel _ m hI hl
  by_cases c10 : isIdentCh m.ch = true
  · rw [tokenAt_ident m c10 (by simpa using c9)]
    by_cases c11 : (readIdentifier m).1 = "let".toList
    · rw [if_pos c11]
      refine ⟨fun hE => TokenType.noConfusion hE, fun _ => ?_⟩
      refine ⟨rfl, ?_, ?_⟩
      · exact scanWhile_pos_lt _ _ m hI c10 (by omega)
      · exact scanWhile_le_len _ isIdentCh_sentinel _ m hI hl
    · rw [if_neg c11]
      refine ⟨fun hE => TokenType.noConfusion hE, fun _ => ?_⟩
      refine ⟨rfl, ?_, ?_⟩
      · exact scanWhile_pos_lt _ _ m hI c10 (by omega)
      · exact scanWhile_le_len _ isIdentCh_sentinel _ m hI hl
  · rw [tokenAt_other m c1 c2 c3 c4 c5 c6 c7 c8 (by simpa using c9)
      (by simpa using c10)]
    refine ⟨fun hE => TokenType.noConfusion hE, fun _ => ?_⟩
    obtain ⟨hseg, hlt2, hle2⟩ := readChar_span m hI c8
    exact ⟨hseg, hlt2, hle2⟩

/-! ### `nextToken`-level facts -/

theorem nextToken_input (l : Lexer) : (nextToken l).2.input = l.input := by
  have h : nextToken l = tokenAt (skipWhitespace l) := rfl
  rw [h, tokenAt_input, skipWhitespace_input]

theorem nextToken_inv (l : Lexer) (h : LexInv l) : LexInv (nextToken l).2 :=
  tokenAt_inv _ (skipWhitespace_inv l h)

theorem nextToken_pos_mono (l : Lexer) (h : LexInv l) :
    l.position ≤ (nextToken l).2.position :=
  Nat.le_trans (skipWhitespace_pos_le l h)
    (tokenAt_pos_mono _ (skipWhitespace_inv l h))

theorem reach_facts (input : List Char) (l : Lexer) (h : Reach input l) :
    l.input = input ∧ LexInv l := by
  induction h with
  | init => exact ⟨rfl, lexInv_mkLexer input⟩
  | step _ ih => exact ⟨(nextToken_input _).trans ih.1, nextToken_inv _ ih.2⟩

/-- Per-call characterization of `nextToken` for cursors inside the input:
the skip loop moves the position monotonically and stays inside the input;
an `END_OF_FILE` answer is empty, steps one past the skip position, and (for
null-free input) happens exactly at the end of the input; any other answer
carries exactly the input segment between the skip position and the new
position. -/
theorem nextToken_span (l : Lexer) (hI : LexInv l) (hl : l.position ≤ l.input.length) :
    l.position ≤ (skipWhitespace l).position ∧
    (skipWhitespace l).position ≤ l.input.length ∧
    ((nextToken l).1.type = .END_OF_FILE →
      (nextToken l).1.literal = [] ∧
      (nextToken l).2.position = (skipWhitespace l).position + 1 ∧
      (NoNul l.input → (skipWhitespace l).position = l.input.length)) ∧
    ((nextToken l).1.type ≠ .END_OF_FILE →
      (nextToken l).1.literal =
        seg l.input (skipWhitespace l).position (nextToken l).2.position ∧
      (skipWhitespace l).position < (nextToken l).2.position ∧
      (nextToken l).2.position ≤ l.input.length) := by
  have hIm : LexInv (skipWhitespace l) := skipWhitespace_inv l hI
  have hinp : (skipWhitespace l).input = l.input := skipWhitespace_input l
  have hml : (skipWhitespace l).position ≤ (skipWhitespace l).input.length := by
    rw [hinp]
    exact skipWhitespace_le_len l hI hl
  have hspan := tokenAt_span (skipWhitespace l) hIm hml
  have hnt : nextToken l = tokenAt (skipWhitespace l) := rfl
  refine ⟨skipWhitespace_pos_le l hI, skipWhitespace_le_len l hI hl, ?_, ?_⟩
  · intro hE
    rw [hnt] at hE
    obtain ⟨hlit, hpos⟩ := hspan.1 hE
    refine ⟨by rw [hnt]; exact hlit, by rw [hnt]; exact hpos, ?_⟩
    intro hN
    have hs : (skipWhitespace l).ch = sentinel := tokenAt_eof_type _ hE
    have hge := lexInv_sentinel_of_noNul _ hIm (by rw [hinp]; exact hN) hs
    rw [hinp] at hge
    have hle := skipWhitespace_le_len l hI hl
    omega
  · intro hne
    rw [hnt] at hne
    obtain ⟨hlit, hlt2, hle2⟩ := hspan.2 hne
    rw [hinp] at hlit hle2
    exact ⟨by rw [hnt]; exact hlit, by rw [hnt]; exact hlt2, by rw [hnt]; exact hle2⟩

/-- Round-trip induction: from any in-input cursor state, the per-call
whitespace + token-text pieces concatenate to the rest of the input. -/
theorem reconstruct_eq_rest (fuel : Nat) (l : Lexer) (hI : LexInv l)
    (hN : NoNul l.input) (hl : l.position ≤ l.input.length)
    (hf : l.input.length - l.position < fuel) :
    reconstruct fuel l = seg l.input l.position l.input.length := by
  induction fuel generalizing l with
  | zero => omega
  | succ fuel ih =>
    obtain ⟨hws1, hws2, hEc, hNc⟩ := nextToken_span l hI hl
    show (if (nextToken l).1.type = .END_OF_FILE then
        seg l.input l.position (skipWhitespace l).position
      else seg l.input l.position (skipWhitespace l).position ++
        (nextToken l).1.literal ++ reconstruct fuel (nextToken l).2) =
      seg l.input l.position l.input.length
    by_cases hE : (nextToken l).1.type = .END_OF_FILE
    · rw [if_pos hE]
      obtain ⟨_, _, hend⟩ := hEc hE
      rw [hend hN]
    · rw [if_neg hE]
      obtain ⟨hlit, hlt2, hle2⟩ := hNc hE
      have hih := ih (nextToken l).2 (nextToken_inv l hI)
        (by rw [nextToken_input]; exact hN)
        (by rw [nextToken_input]; exact hle2)
        (by rw [nextToken_input]; omega)
      rw [nextToken_input] at hih
      rw [hlit, hih, List.append_assoc,
        seg_append l.input (skipWhitespace l).position (nextToken l).2.position
          l.input.length (by omega) hle2,
        seg_append l.input l.position (skipWhitespace l).position
          l.input.length hws1 (by omega)]

/-- Consumption induction: the clamped cursor advances up to and including
the first `END_OF_FILE` sum to the remaining input length. -/
theorem consumedFrom_eq_rest (fuel : Nat) (l : Lexer) (hI : LexInv l)
    (hN : NoNul l.input) (hl : l.position ≤ l.input.length)
    (hf : l.input.length - l.position < fuel) :
    consumedFrom fuel l = l.input.length - l.position := by
  induction fuel generalizing l with
  | zero => omega
  | succ fuel ih =>
    obtain ⟨hws1, hws2, hEc, hNc⟩ := nextToken_span l hI hl
    show (if (nextToken l).1.type = .END_OF_FILE then
        min (nextToken l).2.position l.input.length - min l.position l.input.length
      else min (nextToken l).2.position l.input.length - min l.position l.input.length +
        consumedFrom fuel (nextToken l).2) =
      l.input.length - l.position
    by_cases hE : (nextToken l).1.type = .END_OF_FILE
    · rw [if_pos hE]
      obtain ⟨_, hpos, hend⟩ := hEc hE
      rw [hpos, hend hN]
      omega
    · rw [if_neg hE]
      obtain ⟨_, hlt2, hle2⟩ := hNc hE
      have hih := ih (nextToken l).2 (nextToken_inv l hI)
        (by rw [nextToken_input]; exact hN)
        (by rw [nextToken_input]; exact hle2)
        (by rw [nextToken_input]; omega)
      rw [nextToken_input] at hih
      rw [hih]
      omega

/-- Once the current character is the sentinel with the read cursor at or
past the end, a `nextToken` call emits `END_OF_FILE` with empty text, still
executes the trailing `readChar`, and reestablishes the same situation. -/
theorem nextToken_at_end (m : Lexer) (hs : m.ch = sentinel)
    (hge : m.input.length ≤ m.readPosition) :
    nextToken m = (⟨.END_OF_FILE, []⟩, readChar m) ∧
    (readChar m).ch = sentinel ∧
    (readChar m).input.length ≤ (readChar m).readPosition := by
  have h1 : skipWhitespace m = m := skipWhitespace_stop m (by rw [hs]; decide)
  refine ⟨?_, readChar_ch_of_ge m hge, ?_⟩
  · have h2 : nextToken m = tokenAt (skipWhitespace m) := rfl
    rw [h2, h1, tokenAt_sentinel m hs]
  · rw [readChar_readPosition, readChar_input]
    omega

/-- The end situation persists through any number of further calls. -/
theorem stepN_at_end (n : Nat) (m : Lexer) (hs : m.ch = sentinel)
    (hge : m.input.length ≤ m.readPosition) :
    (stepN n m).ch = sentinel ∧ (stepN n m).input.length ≤ (stepN n m).readPosition := by
  induction n generalizing m with
  | zero => exact ⟨hs, hge⟩
  | succ n ih =>
    obtain ⟨heq, hs2, hge2⟩ := nextToken_at_end m hs hge
    have h : stepN (n + 1) m = stepN n (nextToken m).2 := rfl
    rw [h, heq]
    exact ih (readChar m) hs2 hge2

/-! ### Helper lemmas for individual claims -/

theorem tokenAt_let_iff (m : Lexer) :
    ((tokenAt m).1.type = .LET → (tokenAt m).1.literal = "let".toList) ∧
    ((tokenAt m).1.type = .IDENTIFIER → (tokenAt m).1.literal ≠ "let".toList) := by
  by_cases c1 : m.ch = '='
  · rw [tokenAt_equals m c1]
    exact ⟨fun h => TokenType.noConfusion h, fun h => TokenType.noConfusion h⟩
  by_cases c2 : m.ch = '+'
  · rw [tokenAt_plus m c2]
    exact ⟨fun h => TokenType.noConfusion h, fun h => TokenType.noConfusion h⟩
  by_cases c3 : m.ch = '-'
  · rw [tokenAt_minus m c3]
    exact ⟨fun h => TokenType.noConfusion h, fun h => TokenType.noConfusion h⟩
  by_cases c4 : m.ch = '*'
  · rw [tokenAt_star m c4]
    exact ⟨fun h => TokenType.noConfusion h, fun h => TokenType.noConfusion h⟩
  by_cases c5 : m.ch = '/'
  · rw [tokenAt_slash m c5]
    exact ⟨fun h => TokenType.noConfusion h, fun h => TokenType.noConfusion h⟩
  by_cases c6 : m.ch = '('
  · rw [tokenAt_oparen m c6]
    exact ⟨fun h => TokenType.noConfusion h, fun h => TokenType.noConfusion h⟩
  by_cases c7 : m.ch = ')'
  · rw [tokenAt_cparen m c7]
    exact ⟨fun h => TokenType.noConfusion h, fun h => TokenType.noConfusion h⟩
  by_cases c8 : m.ch = sentinel
  · rw [tokenAt_sentinel m c8]
    exact ⟨fun h => TokenType.noConfusion h, fun h => TokenType.noConfusion h⟩
  by_cases c9 : m.ch.isDigit = true
  · rw [tokenAt_digit m c9]
    exact ⟨fun h => TokenType.noConfusion h, fun h => TokenType.noConfusion h⟩
  by_cases c10 : isIdentCh m.ch = true
  · rw [tokenAt_ident m c10 (by simpa using c9)]
    by_cases c11 : (readIdentifier m).1 = "let".toList
    · rw [if_pos c11]
      exact ⟨fun _ => c11, fun h => TokenType.noConfusion h⟩
    · rw [if_neg c11]
      exact ⟨fun h => TokenType.noConfusion h, fun _ => c11⟩
  · rw [tokenAt_other m c1 c2 c3 c4 c5 c6 c7 c8 (by simpa using c9)
      (by simpa using c10)]
    exact ⟨fun h => TokenType.noConfusion h, fun h => TokenType.noConfusion h⟩

theorem tokenAt_literal_shape (m : Lexer) (hI : LexInv m) :
    ((tokenAt m).1.literal = [] ↔ (tokenAt m).1.type = .END_OF_FILE) ∧
    ((tokenAt m).1.type = .ILLEGAL → (tokenAt m).1.literal.length = 1) ∧
    ((tokenAt m).1.type = .EQUALS → (tokenAt m).1.literal = ['=']) ∧
    ((tokenAt m).1.type = .PLUS → (tokenAt m).1.literal = ['+']) ∧
    ((tokenAt m).1.type = .MINUS → (tokenAt m).1.literal = ['-']) ∧
    ((tokenAt m).1.type = .STAR → (tokenAt m).1.literal = ['*']) ∧
    ((tokenAt m).1.type = .SLASH → (tokenAt m).1.literal = ['/']) ∧
    ((tokenAt m).1.type = .OPEN_PAREN → (tokenAt m).1.literal = ['(']) ∧
    ((tokenAt m).1.type = .CLOSE_PAREN → (tokenAt m).1.literal = [')']) ∧
    ((tokenAt m).1.type = .LET → (tokenAt m).1.literal = "let".toList) ∧
    ((tokenAt m).1.type = .NUMBER → (tokenAt m).1.literal ≠ []) ∧
    ((tokenAt m).1.type = .IDENTIFIER → (tokenAt m).1.literal ≠ []) := by
  by_cases c1 : m.ch = '='
  · rw [tokenAt_equals m c1]; simp
  by_cases c2 : m.ch = '+'
  · rw [tokenAt_plus m c2]; simp
  by_cases c3 : m.ch = '-'
  · rw [tokenAt_minus m c3]; simp
  by_cases c4 : m.ch = '*'
  · rw [tokenAt_star m c4]; simp
  by_cases c5 : m.ch = '/'
  · rw [tokenAt_slash m c5]; simp
  by_cases c6 : m.ch = '('
  · rw [tokenAt_oparen m c6]; simp
  by_cases c7 : m.ch = ')'
  · rw [tokenAt_cparen m c7]; simp
  by_cases c8 : m.ch = sentinel
  · rw [tokenAt_sentinel m c8]; simp
  by_cases c9 : m.ch.isDigit = true
  · rw [tokenAt_digit m c9]
    have hplen : m.position < m.input.length :=
      lexInv_pos_lt m hI (fun e => by rw [e] at c9; exact absurd c9 (by decide))
    have hlt : m.position < (scanWhile Char.isDigit (m.input.length + 2) m).position :=
      scanWhile_pos_lt _ _ m hI c9 (by omega)
    have hne : (readNumber m).1 ≠ [] := by
      show seg m.input m.position
        (scanWhile Char.isDigit (m.input.length + 2) m).position ≠ []
      exact seg_ne_nil _ _ _ hlt hplen
    simp [hne]
  by_cases c10 : isIdentCh m.ch = true
  · rw [tokenAt_ident m c10 (by simpa using c9)]
    have hplen : m.position < m.input.length :=
      lexInv_pos_lt m hI (fun e => by rw [e] at c10; exact absurd c10 (by decide))
    have hlt : m.position < (scanWhile isIdentCh (m.input.length + 2) m).position :=
      scanWhile_pos_lt _ _ m hI c10 (by omega)
    have hne : (readIdentifier m).1 ≠ [] := by
      show seg m.input m.position
        (scanWhile isIdentCh (m.input.length + 2) m).position ≠ []
      exact seg_ne_nil _ _ _ hlt hplen
    by_cases c11 : (readIdentifier m).1 = "let".toList
    · rw [if_pos c11]
      simp [c11]
    · rw [if_neg c11]
      simp [hne]
  · rw [tokenAt_other m c1 c2 c3 c4 c5 c6 c7 c8 (by simpa using c9)
      (by simpa using c10)]
    simp

/-! ### Claim theorems -/

/-- C1: scanning the input "let x = 42 + (15 - 3)" by repeated `nextToken`
calls yields exactly, in order, LET "let", IDENTIFIER "x", EQUALS "=",
NUMBER "42", PLUS "+", OPEN_PAREN "(", NUMBER "15", MINUS "-", NUMBER "3",
CLOSE_PAREN ")", then END_OF_FILE with empty text. -/
theorem c1_end_to_end_scan :
    collectTokens 12 (mkLexer "let x = 42 + (15 - 3)".toList) =
      [⟨.LET, "let".toList⟩, ⟨.IDENTIFIER, ['x']⟩, ⟨.EQUALS, ['=']⟩,
       ⟨.NUMBER, "42".toList⟩, ⟨.PLUS, ['+']⟩, ⟨.OPEN_PAREN, ['(']⟩,
       ⟨.NUMBER, "15".toList⟩, ⟨.MINUS, ['-']⟩, ⟨.NUMBER, "3".toList⟩,
       ⟨.CLOSE_PAREN, [')']⟩, ⟨.END_OF_FILE, []⟩] := by
  decide

/-- C2 counterexample: for the input ⟨NUL, 'a'⟩ the very first call returns
END_OF_FILE (the embedded null byte is taken for the end sentinel), so the
whitespace-and-token concatenation is empty and does not reconstruct the
input. -/
theorem c2_roundtrip_counterexample :
    reconstruct 3 (mkLexer [sentinel, 'a']) ≠ [sentinel, 'a'] := by
  decide

/-- C2 (amended with: the input contains no NUL byte): concatenating, in
order, the whitespace actually skipped before each token and the token's
text, over all calls up to the first END_OF_FILE, reconstructs the input. -/
theorem c2_roundtrip (input : List Char) (hN : NoNul input) :
    reconstruct (input.length + 1) (mkLexer input) = input := by
  have hinp : (mkLexer input).input = input := rfl
  have hpos : (mkLexer input).position = 0 := rfl
  have h := reconstruct_eq_rest (input.length + 1) (mkLexer input)
    (lexInv_mkLexer input) (by rw [hinp]; exact hN)
    (by rw [hpos]; exact Nat.zero_le _)
    (by rw [hinp, hpos]; omega)
  rw [h, hinp, hpos, seg_zero_len]

/-- C2 witness at the concrete null-free input "let x". -/
theorem c2_roundtrip_witness :
    NoNul "let x".toList ∧
    reconstruct ("let x".toList.length + 1) (mkLexer "let x".toList) =
      "let x".toList :=
  ⟨by unfold NoNul; decide, c2_roundtrip "let x".toList (by unfold NoNul; decide)⟩

/-- C3 counterexample: for the input ⟨NUL, 'a'⟩ the scan stops at the
embedded null byte after consuming one character, not the input length 2. -/
theorem c3_consumed_counterexample :
    consumedFrom 3 (mkLexer [sentinel, 'a']) ≠ ([sentinel, 'a'] : List Char).length := by
  decide

/-- C3 (amended with: the input contains no NUL byte): the total number of
input characters consumed across all calls up to and including the first
END_OF_FILE equals the input length. -/
theorem c3_consumed_total (input : List Char) (hN : NoNul input) :
    consumedFrom (input.length + 1) (mkLexer input) = input.length := by
  have hinp : (mkLexer input).input = input := rfl
  have hpos : (mkLexer input).position = 0 := rfl
  have h := consumedFrom_eq_rest (input.length + 1) (mkLexer input)
    (lexInv_mkLexer input) (by rw [hinp]; exact hN)
    (by rw [hpos]; exact Nat.zero_le _)
    (by rw [hinp, hpos]; omega)
  rw [h, hinp, hpos]
  omega

/-- C3 witness at the concrete null-free input "let x". -/
theorem c3_consumed_total_witness :
    NoNul "let x".toList ∧
    consumedFrom ("let x".toList.length + 1) (mkLexer "let x".toList) =
      "let x".toList.length :=
  ⟨by unfold NoNul; decide, c3_consumed_total "let x".toList (by unfold NoNul; decide)⟩

/-- C4 counterexample: on the input ⟨NUL, 'a'⟩ the first call returns
END_OF_FILE but the second call returns an IDENTIFIER, so END_OF_FILE is not
persistent on arbitrary inputs. -/
theorem c4_eof_counterexample :
    (nextToken (mkLexer [sentinel, 'a'])).1.type = .END_OF_FILE ∧
    (nextToken (nextToken (mkLexer [sentinel, 'a'])).2).1.type ≠ .END_OF_FILE := by
  decide

/-- C4 (amended with: the input contains no NUL byte): from any reachable
state, once a call has returned END_OF_FILE, every subsequent call returns
END_OF_FILE with empty text. -/
theorem c4_eof_persists (input : List Char) (l : Lexer) (hN : NoNul input)
    (hR : Reach input l) (hE : (nextToken l).1.type = .END_OF_FILE) (n : Nat) :
    (nextToken (stepN n (nextToken l).2)).1 = ⟨.END_OF_FILE, []⟩ := by
  obtain ⟨hinp, hI⟩ := reach_facts input l hR
  have hIm : LexInv (skipWhitespace l) := skipWhitespace_inv l hI
  have hs : (skipWhitespace l).ch = sentinel := tokenAt_eof_type _ hE
  have hge : (skipWhitespace l).input.length ≤ (skipWhitespace l).position :=
    lexInv_sentinel_of_noNul _ hIm (by rw [skipWhitespace_input, hinp]; exact hN) hs
  have h2 : (nextToken l).2 = readChar (skipWhitespace l) := by
    have h3 : nextToken l = tokenAt (skipWhitespace l) := rfl
    rw [h3, tokenAt_sentinel _ hs]
  have hge2 : (skipWhitespace l).input.length ≤ (skipWhitespace l).readPosition := by
    have := hIm.1
    omega
  have hs3 : (readChar (skipWhitespace l)).ch = sentinel := readChar_ch_of_ge _ hge2
  have hge3 : (readChar (skipWhitespace l)).input.length ≤
      (readChar (skipWhitespace l)).readPosition := by
    rw [readChar_input, readChar_readPosition]
    omega
  rw [h2]
  obtain ⟨hsN, hgeN⟩ := stepN_at_end n (readChar (skipWhitespace l)) hs3 hge3
  rw [(nextToken_at_end _ hsN hgeN).1]

/-- C4 witness: on input "a", after the second call has returned
END_OF_FILE, one further call still returns END_OF_FILE with empty text. -/
theorem c4_eof_persists_witness :
    (nextToken (stepN 1 (nextToken (nextToken (mkLexer ['a'])).2).2)).1 =
      ⟨.END_OF_FILE, []⟩ :=
  c4_eof_persists ['a'] (nextToken (mkLexer ['a'])).2 (by unfold NoNul; decide)
    (Reach.step Reach.init) (by decide) 1

/-- C5 counterexample: on the empty input the constructor leaves the cursor
observing the sentinel, and the first call emits END_OF_FILE while changing
both `position` and `readPosition`, contradicting that the fields are
unchanged by that call. -/
theorem c5_cursor_counterexample :
    (mkLexer []).ch = sentinel ∧
    (nextToken (mkLexer [])).1 = ⟨.END_OF_FILE, []⟩ ∧
    (nextToken (mkLexer [])).2.position ≠ (mkLexer []).position ∧
    (nextToken (mkLexer [])).2.readPosition ≠ (mkLexer []).readPosition := by
  decide

/-- C5 (amended): when `nextToken` observes the sentinel with the read
cursor at or past the end of the buffer, it emits END_OF_FILE with empty
text, but the trailing `readChar` still executes: on that call and on every
later call, `position` becomes the old `readPosition` and `readPosition`
advances by one (the fields are not unchanged), while the current character
stays the sentinel, so no input character is ever examined again. -/
theorem c5_eof_advances (m : Lexer) (hs : m.ch = sentinel)
    (hge : m.input.length ≤ m.readPosition) (n : Nat) :
    (nextToken (stepN n m)).1 = ⟨.END_OF_FILE, []⟩ ∧
    (nextToken (stepN n m)).2.position = (stepN n m).readPosition ∧
    (nextToken (stepN n m)).2.readPosition = (stepN n m).readPosition + 1 ∧
    (nextToken (stepN n m)).2.ch = sentinel := by
  obtain ⟨hsN, hgeN⟩ := stepN_at_end n m hs hge
  obtain ⟨heq, hs2, _⟩ := nextToken_at_end _ hsN hgeN
  rw [heq]
  exact ⟨rfl, readChar_position _, readChar_readPosition _, hs2⟩

/-- C5 witness at the empty input, two calls after construction. -/
theorem c5_eof_advances_witness :
    (nextToken (stepN 2 (mkLexer []))).1 = ⟨.END_OF_FILE, []⟩ ∧
    (nextToken (stepN 2 (mkLexer []))).2.position = (stepN 2 (mkLexer [])).readPosition ∧
    (nextToken (stepN 2 (mkLexer []))).2.readPosition =
      (stepN 2 (mkLexer [])).readPosition + 1 ∧
    (nextToken (stepN 2 (mkLexer []))).2.ch = sentinel :=
  c5_eof_advances (mkLexer []) (by decide) (by decide) 2

/-- C6: at a current byte that is not whitespace, not the end sentinel, not
one of the seven symbols, not a decimal digit, and not a letter or
underscore, `nextToken` returns an ILLEGAL token carrying exactly that
single byte and advances the cursor by exactly one character. -/
theorem c6_illegal_byte (l : Lexer) (hw : isWsCh l.ch = false)
    (hs : l.ch ≠ sentinel) (h1 : l.ch ≠ '=') (h2 : l.ch ≠ '+')
    (h3 : l.ch ≠ '-') (h4 : l.ch ≠ '*') (h5 : l.ch ≠ '/') (h6 : l.ch ≠ '(')
    (h7 : l.ch ≠ ')') (hd : l.ch.isDigit = false) (ha : l.ch.isAlpha = false)
    (hu : l.ch ≠ '_') (hrp : l.readPosition = l.position + 1) :
    nextToken l = (⟨.ILLEGAL, [l.ch]⟩, readChar l) ∧
    (nextToken l).2.position = l.position + 1 ∧
    (nextToken l).2.readPosition = l.position + 2 := by
  have hskip : skipWhitespace l = l := skipWhitespace_stop l hw
  have hid : isIdentCh l.ch = false := by
    unfold isIdentCh
    rw [ha, Bool.false_or]
    exact beq_eq_false_iff_ne.mpr hu
  have heq : nextToken l = tokenAt l := by
    have h : nextToken l = tokenAt (skipWhitespace l) := rfl
    rw [h, hskip]
  rw [heq, tokenAt_other l h1 h2 h3 h4 h5 h6 h7 hs hd hid]
  refine ⟨rfl, ?_, ?_⟩
  · show (readChar l).position = l.position + 1
    rw [readChar_position, hrp]
  · show (readChar l).readPosition = l.position + 2
    rw [readChar_readPosition, hrp]

/-- C6 witness at the one-character input "@". -/
theorem c6_illegal_byte_witness :
    nextToken (mkLexer ['@']) =
      (⟨.ILLEGAL, [(mkLexer ['@']).ch]⟩, readChar (mkLexer ['@'])) ∧
    (nextToken (mkLexer ['@'])).2.position = (mkLexer ['@']).position + 1 ∧
    (nextToken (mkLexer ['@'])).2.readPosition = (mkLexer ['@']).position + 2 :=
  c6_illegal_byte (mkLexer ['@']) (by decide) (by decide) (by decide) (by decide)
    (by decide) (by decide) (by decide) (by decide) (by decide) (by decide)
    (by decide) (by decide) (by decide)

/-- C7: keyword recognition is an exact full-lexeme comparison against
"let": the input "letx" scans as a single IDENTIFIER "letx" followed by
END_OF_FILE, and in general a LET token always carries exactly "let" while
an IDENTIFIER token never carries "let". -/
theorem c7_keyword_exact :
    collectTokens 3 (mkLexer "letx".toList) =
      [⟨.IDENTIFIER, "letx".toList⟩, ⟨.END_OF_FILE, []⟩] ∧
    ∀ l : Lexer,
      ((nextToken l).1.type = .LET → (nextToken l).1.literal = "let".toList) ∧
      ((nextToken l).1.type = .IDENTIFIER →
        (nextToken l).1.literal ≠ "let".toList) :=
  ⟨by decide, fun l => tokenAt_let_iff (skipWhitespace l)⟩

/-- C8: in every state reachable from construction, `position` is strictly
below `readPosition`, and `position` does not decrease across a
`nextToken` call. -/
theorem c8_cursor_invariant (input : List Char) (l : Lexer)
    (hR : Reach input l) :
    l.position < l.readPosition ∧ l.position ≤ (nextToken l).2.position := by
  obtain ⟨_, hI⟩ := reach_facts input l hR
  refine ⟨?_, nextToken_pos_mono l hI⟩
  have := hI.1
  omega

/-- C8 witness at the one-character input "a", at the constructed state. -/
theorem c8_cursor_invariant_witness :
    (mkLexer ['a']).position < (mkLexer ['a']).readPosition ∧
    (mkLexer ['a']).position ≤ (nextToken (mkLexer ['a'])).2.position :=
  c8_cursor_invariant ['a'] (mkLexer ['a']) Reach.init

/-- C9: from any scanner state, the whitespace-skip, digit-run and
identifier-run loops all terminate: each loop's guard is false at its
result, and granting any extra fuel beyond the input-length bound leaves
the result unchanged, so `nextToken` never loops forever. -/
theorem c9_loops_terminate (l : Lexer) (extra : Nat) :
    isWsCh (skipWhitespace l).ch = false ∧
    Char.isDigit (readNumber l).2.ch = false ∧
    isIdentCh (readIdentifier l).2.ch = false ∧
    scanWhile isWsCh (l.input.length + 2 + extra) l = skipWhitespace l ∧
    scanWhile Char.isDigit (l.input.length + 2 + extra) l = (readNumber l).2 ∧
    scanWhile isIdentCh (l.input.length + 2 + extra) l = (readIdentifier l).2 := by
  refine ⟨skipWhitespace_exit l, ?_, ?_, ?_, ?_, ?_⟩
  · exact scanWhile_exit _ isDigit_sentinel _ _ (by omega)
  · exact scanWhile_exit _ isIdentCh_sentinel _ _ (by omega)
  · rw [scanWhile_add,
      scanWhile_stop _ _ _ (scanWhile_exit _ isWsCh_sentinel _ _ (by omega))]
    rfl
  · rw [scanWhile_add,
      scanWhile_stop _ _ _ (scanWhile_exit _ isDigit_sentinel _ _ (by omega))]
    rfl
  · rw [scanWhile_add,
      scanWhile_stop _ _ _ (scanWhile_exit _ isIdentCh_sentinel _ _ (by omega))]
    rfl

/-- C10: in every reachable state, the token returned by `nextToken` has
empty text exactly when it is END_OF_FILE; ILLEGAL tokens carry exactly one
character, each symbol token carries exactly its symbol, LET carries
exactly "let", and NUMBER and IDENTIFIER tokens are nonempty. -/
theorem c10_literal_shape (input : List Char) (l : Lexer)
    (hR : Reach input l) :
    ((nextToken l).1.literal = [] ↔ (nextToken l).1.type = .END_OF_FILE) ∧
    ((nextToken l).1.type = .ILLEGAL → (nextToken l).1.literal.length = 1) ∧
    ((nextToken l).1.type = .EQUALS → (nextToken l).1.literal = ['=']) ∧
    ((nextToken l).1.type = .PLUS → (nextToken l).1.literal = ['+']) ∧
    ((nextToken l).1.type = .MINUS → (nextToken l).1.literal = ['-']) ∧
    ((nextToken l).1.type = .STAR → (nextToken l).1.literal = ['*']) ∧
    ((nextToken l).1.type = .SLASH → (nextToken l).1.literal = ['/']) ∧
    ((nextToken l).1.type = .OPEN_PAREN → (nextToken l).1.literal = ['(']) ∧
    ((nextToken l).1.type = .CLOSE_PAREN → (nextToken l).1.literal = [')']) ∧
    ((nextToken l).1.type = .LET → (nextToken l).1.literal = "let".toList) ∧
    ((nextToken l).1.type = .NUMBER → (nextToken l).1.literal ≠ []) ∧
    ((nextToken l).1.type = .IDENTIFIER → (nextToken l).1.literal ≠ []) := by
  obtain ⟨_, hI⟩ := reach_facts input l hR
  exact tokenAt_literal_shape (skipWhitespace l) (skipWhitespace_inv l hI)

/-- C10 witness at the one-character input "5", at the constructed state. -/
theorem c10_literal_shape_witness :
    (nextToken (mkLexer ['5'])).1.literal = [] ↔
      (nextToken (mkLexer ['5'])).1.type = .END_OF_FILE :=
  (c10_literal_shape ['5'] (mkLexer ['5']) Reach.init).1
